import Mathlib

/-!
Verification development for the kicad-jlcpcb-tools repository
(src/library.py and src/gencsv.py).

Bytes are modelled as `Nat`, decoded text as `List Char`.  The incremental
LZMA decompressor (`lzma.LZMADecompressor`) is modelled abstractly by its
cumulative output function `D : List α → List α` on the input consumed so
far: a real decompressor is deterministic in the bytes fed to it, so feeding
chunk `c` after having already consumed `cs` returns
`D (cs ++ c)` minus the previously returned prefix `D cs`.  A prefix-monotone
`D` is exactly such a decompressor; `decompress` may legitimately return
no bytes on a chunk that is a strict prefix of a compression unit.
-/

/-- Output of one `decompress(data)` call: the new cumulative output minus
what was already handed out (`lzma.LZMADecompressor.decompress`). -/
def decOut {α : Type} (D : List α → List α) (consumed c : List α) : List α :=
  (D (consumed ++ c)).drop (D consumed).length

/-- Scan `s` left to right; `acc` holds the characters of the current line so
far, reversed.  When the two-byte terminator `cr, lf` completes — exactly the
first occurrence found by `self.linebuf.find(b'\x5cr\x5cn')` in
`LZMAIterReader.readline` — emit the line including its terminator and start
over.  Returns the list of emitted complete lines together with the trailing
incomplete remainder. -/
def emitGo {α : Type} [DecidableEq α] (cr lf : α) : List α → List α → List (List α) × List α
  | [], acc => ([], acc.reverse)
  | c :: rest, acc =>
    if c = lf ∧ acc.head? = some cr then
      let p := emitGo cr lf rest []
      ((c :: acc).reverse :: p.1, p.2)
    else
      emitGo cr lf rest (c :: acc)

/-- All complete lines of a buffer plus the incomplete remainder. -/
def emitAll {α : Type} [DecidableEq α] (cr lf : α) (buf : List α) : List (List α) × List α :=
  emitGo cr lf buf []

/-- Splitting a whole decoded stream on the line terminator, each line keeping
its terminator; trailing bytes after the last terminator are discarded.  This
is the whole-stream reference the spec compares the Decompressor against. -/
def linesSep {α : Type} [DecidableEq α] (cr lf : α) (s : List α) : List (List α) :=
  (emitAll cr lf s).1

/-- `LZMAIterReader` iterated to exhaustion (`library.py` lines 22-64).
`readline` first scans `self.linebuf` for the terminator; only when none is
present does it call `read()`, which pops the next compressed chunk from the
iterator and decompresses it.  Since `read()` computes
`amt = min(n, len(self.chunk))` with `n = len(self.chunk)`, it always returns
the whole decompressed chunk, so `self.chunk` is empty between `read()` calls
and is elided here.  A `read()` that produces no bytes — either because
`next(self.iter)` raised `StopIteration` or because `decompress` returned an
empty result — ends the iteration (`raise StopIteration()`), discarding the
incomplete tail of `linebuf`. -/
def runFromChunks {α : Type} [DecidableEq α] (D : List α → List α) (cr lf : α) :
    List (List α) → List α → List α → List (List α)
  | [], _consumed, linebuf => (emitAll cr lf linebuf).1
  | c :: cs, consumed, linebuf =>
    let p := emitAll cr lf linebuf
    let nd := decOut D consumed c
    if nd.isEmpty then p.1
    else p.1 ++ runFromChunks D cr lf cs (consumed ++ c) (p.2 ++ nd)

/-- The byte-level line sequence emitted by `LZMAIterReader(iter)` over the
given compressed chunks. -/
def readerLines (D : List Nat → List Nat) (chunks : List (List Nat)) : List (List Nat) :=
  runFromChunks D 13 10 chunks [] []

/-- A concrete cumulative decompressor: it produces no output until the first
two compressed bytes `0, 1` have both arrived, and then the six decoded bytes
`A \x5cr \x5cn B \x5cr \x5cn`.  This is the shape a real LZMA decompressor
takes on a stream whose first chunk is a strict prefix of the format header:
`decompress` buffers the input and returns an empty byte string. -/
def D1 (s : List Nat) : List Nat :=
  if s.take 2 = [0, 1] then [65, 13, 10, 66, 13, 10] else []

theorem D1_mono (s t : List Nat) (h : s <+: t) : D1 s <+: D1 t := by
  obtain ⟨u, rfl⟩ := h
  by_cases hs : s.take 2 = [0, 1]
  · have hlen : 2 ≤ s.length := by
      have := congrArg List.length hs
      simp [List.length_take] at this
      omega
    have ht : (s ++ u).take 2 = [0, 1] := by
      rw [List.take_append_of_le_length hlen]
      exact hs
    simp [D1, hs, ht]
  · simp [D1, hs]

/-- Claim C1 (code_bug): the claim states the emitted line sequence is
independent of chunk boundaries and equal to whole-stream decompression split
on the terminator.  The code violates this: when a chunk decompresses to zero
bytes — as happens whenever a chunk boundary falls inside a compression unit
not yet producing output — `readline` raises `StopIteration` and the whole
rest of the stream is discarded.  With the decompressor `D1` the stream split
as `[[0], [1]]` yields no lines, while the same stream as a single chunk
`[[0, 1]]` (and the whole-stream reference) yields both lines. -/
theorem lzma_chunk_boundary_dependence :
    decOut D1 [] [0] = [] ∧
    readerLines D1 [[0], [1]] = [] ∧
    readerLines D1 [[0, 1]] = [[65, 13, 10], [66, 13, 10]] ∧
    linesSep 13 10 (D1 ([[0], [1]].flatten)) = [[65, 13, 10], [66, 13, 10]] := by
  refine ⟨?_, ?_, ?_, ?_⟩ <;> decide

/-!
Bulk loader batching (`library.py` lines 319-334).  The loop
`for count, row in enumerate(csv_reader)` appends each row to `buffer` and,
when `count % 1000 == 0`, runs `executemany` on the buffer and clears it; a
remaining non-empty buffer is flushed after the loop and the connection is
committed once.
-/

/-- One pass of the download loop: returns the successive `executemany`
batches, in order.  `count` is the zero-based `enumerate` index and `buffer`
holds the rows accumulated since the previous flush. -/
def loadLoop {α : Type} : List α → Nat → List α → List (List α)
  | [], _count, buffer => if buffer.isEmpty then [] else [buffer]
  | row :: rest, count, buffer =>
    let buffer1 := buffer ++ [row]
    if count % 1000 = 0 then buffer1 :: loadLoop rest (count + 1) []
    else loadLoop rest (count + 1) buffer1

/-- The batches flushed when loading the given data rows. -/
def loadBatches {α : Type} (rows : List α) : List (List α) :=
  loadLoop rows 0 []

theorem loadLoop_flatten {α : Type} :
    ∀ (l : List α) (count : Nat) (buffer : List α),
      (loadLoop l count buffer).flatten = buffer ++ l := by
  intro l
  induction l with
  | nil =>
    intro count buffer
    by_cases h : buffer.isEmpty <;>
      simp_all [loadLoop, List.isEmpty_iff]
  | cons row rest ih =>
    intro count buffer
    by_cases h : count % 1000 = 0 <;>
      simp [loadLoop, h, ih]

/-- Arithmetic shadow of `loadLoop` tracking only batch sizes. -/
def sizesLoop : Nat → Nat → Nat → List Nat
  | 0, _count, buflen => if buflen = 0 then [] else [buflen]
  | n + 1, count, buflen =>
    if count % 1000 = 0 then (buflen + 1) :: sizesLoop n (count + 1) 0
    else sizesLoop n (count + 1) (buflen + 1)

theorem loadLoop_sizes {α : Type} :
    ∀ (l : List α) (count : Nat) (buffer : List α),
      (loadLoop l count buffer).map List.length = sizesLoop l.length count buffer.length := by
  intro l
  induction l with
  | nil =>
    intro count buffer
    by_cases h : buffer.isEmpty <;>
      simp_all [loadLoop, sizesLoop, List.isEmpty_iff, List.length_eq_zero]
  | cons row rest ih =>
    intro count buffer
    by_cases h : count % 1000 = 0 <;>
      simp [loadLoop, sizesLoop, h, ih]

set_option maxRecDepth 40000 in
theorem loadBatches_sizes_2500 :
    (loadBatches (List.replicate 2500 (0 : Nat))).map List.length = [1, 1000, 1000, 499] := by
  have h := loadLoop_sizes (List.replicate 2500 (0 : Nat)) 0 []
  simp only [List.length_replicate, List.length_nil] at h
  exact h.trans (by decide)

/-- Counterexample to claim C2: loading 2500 data rows does not commit them
across 3 batches of sizes 1000, 1000, 500.  Because the flush condition
`count % 1000 == 0` fires on the very first row (`count = 0`), the batches
have sizes 1, 1000, 1000 and 499. -/
theorem loadBatches_2500_not_three_batches :
    (loadBatches (List.replicate 2500 (0 : Nat))).map List.length ≠ [1000, 1000, 500] := by
  rw [loadBatches_sizes_2500]
  decide

/-- Claim C2 as amended: the loader persists exactly the given rows, in
order (the flushed batches concatenate to the input row stream), but the
flush fires whenever the zero-based row index is divisible by 1000, so 2500
rows are committed across 4 batches of sizes 1, 1000, 1000 and 499. -/
theorem loadBatches_persist_all_rows {α : Type} (rows : List α) :
    (loadBatches rows).flatten = rows ∧
    (loadBatches (List.replicate 2500 (0 : Nat))).map List.length = [1, 1000, 1000, 499] :=
  ⟨loadLoop_flatten rows 0 [], loadBatches_sizes_2500⟩

/-!
Keyword splitting (`shlex.split`, POSIX mode with whitespace splitting) as
used by `Library.search` (`library.py` line 126).  The tokenizer recognises
whitespace-separated tokens, single and double quotes, backslash escapes
outside quotes and inside double quotes; an unterminated quote or a trailing
escape raises `ValueError`, modelled as `none`.
-/

inductive SState
  | ws
  | word
  | esc
  | squote
  | dquote
  | dqesc
deriving DecidableEq

def shlexWhitespace (c : Char) : Bool :=
  c = ' ' ∨ c = '\t' ∨ c = '\r' ∨ c = '\n'

def shlexGo : List Char → Option (List Char) → SState → List String → Option (List String)
  | [], tok, st, acc =>
    match st with
    | .ws | .word =>
      some (acc ++ (match tok with | some t => [String.mk t] | none => []))
    | _ => none
  | c :: rest, tok, st, acc =>
    match st with
    | .ws =>
      if shlexWhitespace c then shlexGo rest none .ws acc
      else if c = '\'' then shlexGo rest (some (tok.getD [])) .squote acc
      else if c = '"' then shlexGo rest (some (tok.getD [])) .dquote acc
      else if c = '\\' then shlexGo rest (some (tok.getD [])) .esc acc
      else shlexGo rest (some (tok.getD [] ++ [c])) .word acc
    | .word =>
      if shlexWhitespace c then shlexGo rest none .ws (acc ++ [String.mk (tok.getD [])])
      else if c = '\'' then shlexGo rest tok .squote acc
      else if c = '"' then shlexGo rest tok .dquote acc
      else if c = '\\' then shlexGo rest tok .esc acc
      else shlexGo rest (some (tok.getD [] ++ [c])) .word acc
    | .esc => shlexGo rest (some (tok.getD [] ++ [c])) .word acc
    | .squote =>
      if c = '\'' then shlexGo rest tok .word acc
      else shlexGo rest (some (tok.getD [] ++ [c])) .squote acc
    | .dquote =>
      if c = '"' then shlexGo rest tok .word acc
      else if c = '\\' then shlexGo rest tok .dqesc acc
      else shlexGo rest (some (tok.getD [] ++ [c])) .dquote acc
    | .dqesc =>
      if c = '"' ∨ c = '\\' then shlexGo rest (some (tok.getD [] ++ [c])) .dquote acc
      else shlexGo rest (some (tok.getD [] ++ ['\\', c])) .dquote acc

def shlexSplit (s : String) : Option (List String) :=
  shlexGo s.data none .ws []

/-!
`Library.search` (`library.py` lines 109-185).  The SQL text is assembled
with Python f-strings: every keyword token and every structured filter value
is interpolated directly into the query string.  The outcome distinguishes
the three ways the function returns: the bare `return` (Python `None`) after
a keyword-splitting error, the early `return []` when no clause was
collected, and the execution of an assembled query.
-/

/-- Python `",".join(...)` / `" OR ".join(...)`. -/
def joinSep (sep : String) : List String → String
  | [] => ""
  | [x] => x
  | x :: xs => x ++ sep ++ joinSep sep xs

structure SearchParams where
  keyword : String
  manufacturer : String
  package : String
  category : String
  part_no : String
  solder_joints : String
  basic : Bool
  extended : Bool
  stock : Bool
deriving DecidableEq

inductive SearchOutcome
  | errorNone
  | emptyList
  | query (sql : String)
deriving DecidableEq

structure SearchRes where
  messages : List String
  outcome : SearchOutcome
deriving DecidableEq

def searchColumns : List String :=
  ["LCSC Part", "MFR.Part", "Package", "Solder Joint", "Library Type",
   "Manufacturer", "Description", "Price", "Stock"]

def keywordColumns : List String :=
  ["LCSC Part", "Description", "MFR.Part", "Package", "Manufacturer"]

def quoteIdent (c : String) : String := "\"" ++ c ++ "\""

def kwClause (kw : String) : String :=
  "(" ++ joinSep " OR "
    (keywordColumns.map (fun c => quoteIdent c ++ " LIKE \"%" ++ kw ++ "%\"")) ++ ")"

/-- The `query_chunks` list, in source order: keyword clauses, then the five
truthiness-guarded structured filters, the library-type IN clause and the
stock clause. -/
def searchChunks (p : SearchParams) (keywords : List String) : List String :=
  keywords.map kwClause
  ++ (if p.manufacturer ≠ "" then ["\"Manufacturer\" LIKE \"" ++ p.manufacturer ++ "\""] else [])
  ++ (if p.package ≠ "" then ["\"Package\" LIKE \"" ++ p.package ++ "\""] else [])
  ++ (if p.category ≠ "" then
        ["(\"First Category\" LIKE \"" ++ p.category
          ++ "\" OR \"Second Category\" LIKE \"" ++ p.category ++ "\")"] else [])
  ++ (if p.part_no ≠ "" then ["\"MFR.Part\" LIKE \"" ++ p.part_no ++ "\""] else [])
  ++ (if p.solder_joints ≠ "" then ["\"Solder Joint\" LIKE \"" ++ p.solder_joints ++ "\""] else [])
  ++ (let lt := (if p.basic then ["\"Basic\""] else [])
              ++ (if p.extended then ["\"Extended\""] else [])
      if lt ≠ [] then ["\"Library Type\" IN (" ++ joinSep "," lt ++ ")"] else [])
  ++ (if p.stock then ["\"Stock\" > \"0\""] else [])

def search (order_by order_dir : String) (p : SearchParams) : SearchRes :=
  match shlexSplit p.keyword with
  | none => { messages := ["Query error"], outcome := .errorNone }
  | some keywords =>
    let chunks := searchChunks p keywords
    if chunks = [] then { messages := [], outcome := .emptyList }
    else
      { messages := []
      , outcome := .query
          ("SELECT " ++ joinSep "," (searchColumns.map quoteIdent)
            ++ " FROM parts WHERE " ++ joinSep " AND " chunks
            ++ " ORDER BY \"" ++ order_by ++ "\" COLLATE naturalsort " ++ order_dir
            ++ " LIMIT 1000") }

theorem strData_append (s t : String) : (s ++ t).data = s.data ++ t.data := rfl

theorem shlexSplit_empty : shlexSplit "" = some [] := rfl

/-- Search parameters with only the manufacturer filter set. -/
def onlyManufacturer (m : String) : SearchParams :=
  { keyword := "", manufacturer := m, package := "", category := "", part_no := ""
  , solder_joints := "", basic := false, extended := false, stock := false }

theorem search_onlyManufacturer (order_by order_dir m : String) (hm : m ≠ "") :
    search order_by order_dir (onlyManufacturer m) =
      { messages := []
      , outcome := .query
          ("SELECT " ++ joinSep "," (searchColumns.map quoteIdent)
            ++ " FROM parts WHERE " ++ ("\"Manufacturer\" LIKE \"" ++ m ++ "\"")
            ++ " ORDER BY \"" ++ order_by ++ "\" COLLATE naturalsort " ++ order_dir
            ++ " LIMIT 1000") } := by
  simp only [search, onlyManufacturer, shlexSplit_empty, searchChunks, hm]
  simp [joinSep, hm]

set_option maxRecDepth 100000 in
/-- Counterexample to claim C3: two runs that differ only in the manufacturer
filter value produce different SQL text, because the value is interpolated
into the query string rather than passed through a parameter placeholder. -/
theorem search_sql_not_value_independent :
    search "LCSC Part" "ASC" (onlyManufacturer "X") ≠
      search "LCSC Part" "ASC" (onlyManufacturer "Y") := by
  decide

/-- Claim C3 as amended: the SQL text built by `search` embeds the filter
values directly (f-string interpolation), so it is not independent of them:
whenever two parameter assignments differ only in a non-empty manufacturer
value, the generated SQL strings differ.  No parameter placeholders are used
for filter values anywhere in `search`. -/
theorem search_sql_depends_on_filter_value (order_by order_dir m₁ m₂ : String)
    (h1 : m₁ ≠ "") (h2 : m₂ ≠ "") (hne : m₁ ≠ m₂) :
    search order_by order_dir (onlyManufacturer m₁) ≠
      search order_by order_dir (onlyManufacturer m₂) := by
  intro h
  rw [search_onlyManufacturer _ _ _ h1, search_onlyManufacturer _ _ _ h2] at h
  simp only [SearchRes.mk.injEq, SearchOutcome.query.injEq, true_and] at h
  have hd := congrArg String.data h
  simp only [strData_append, List.append_assoc] at hd
  repeat replace hd := List.append_cancel_left hd
  replace hd := List.append_cancel_right hd
  exact hne (String.ext hd)

/-- Witness for the amended claim C3 at concrete filter values. -/
theorem search_sql_depends_on_filter_value_witness :
    search "MFR.Part" "DESC" (onlyManufacturer "Samsung") ≠
      search "MFR.Part" "DESC" (onlyManufacturer "Yageo") :=
  search_sql_depends_on_filter_value "MFR.Part" "DESC" "Samsung" "Yageo"
    (by decide) (by decide) (by decide)

/-- The keyword input of the spec's query-builder test: a lone double quote
followed by `10k`, which `shlex.split` rejects with `ValueError`. -/
def searchParamsBadQuote : SearchParams :=
  { keyword := "\"10k", manufacturer := "", package := "", category := "", part_no := ""
  , solder_joints := "", basic := false, extended := false, stock := false }

set_option maxRecDepth 40000 in
/-- Counterexample to claim C5: on the unbalanced-quote keyword the code
takes the bare `return` after posting the error event, i.e. it returns
Python `None` — not the empty list the claim promises (the empty list is
returned only on the separate empty-filter path, `return []`). -/
theorem unbalanced_quote_returns_none_not_empty_list :
    (search "LCSC Part" "ASC" searchParamsBadQuote).outcome = SearchOutcome.errorNone ∧
    SearchOutcome.errorNone ≠ SearchOutcome.emptyList ∧
    "Query error" ∈ (search "LCSC Part" "ASC" searchParamsBadQuote).messages := by
  refine ⟨?_, ?_, ?_⟩ <;> decide

/-- Claim C5 as amended: for every keyword whose shell-style split fails, the
search operation posts a "Query error" message to the caller and returns
`None` (not an empty list) without crashing. -/
theorem search_split_error_reports_and_returns_none (order_by order_dir : String)
    (p : SearchParams) (h : shlexSplit p.keyword = none) :
    search order_by order_dir p = { messages := ["Query error"], outcome := .errorNone } := by
  simp [search, h]

set_option maxRecDepth 40000 in
/-- Witness for the amended claim C5 at the spec's `"10k` keyword. -/
theorem search_split_error_witness :
    search "LCSC Part" "ASC" searchParamsBadQuote =
      { messages := ["Query error"], outcome := .errorNone } :=
  search_split_error_reports_and_returns_none "LCSC Part" "ASC" searchParamsBadQuote (by decide)

/-- Search parameters with no keyword and every filter cleared. -/
def emptySearchParams : SearchParams :=
  { keyword := "", manufacturer := "", package := "", category := "", part_no := ""
  , solder_joints := "", basic := false, extended := false, stock := false }

/-- Claim C7: when the keyword splits into no tokens and no structured
filter, library-type flag or stock flag contributes a clause, `query_chunks`
is empty and the search returns the empty list immediately — no SQL query is
ever assembled or executed. -/
theorem empty_search_no_query (order_by order_dir : String) (p : SearchParams)
    (hk : shlexSplit p.keyword = some []) (h1 : p.manufacturer = "") (h2 : p.package = "")
    (h3 : p.category = "") (h4 : p.part_no = "") (h5 : p.solder_joints = "")
    (h6 : p.basic = false) (h7 : p.extended = false) (h8 : p.stock = false) :
    search order_by order_dir p = { messages := [], outcome := .emptyList } := by
  simp [search, hk, searchChunks, h1, h2, h3, h4, h5, h6, h7, h8]

/-- Witness for claim C7 with all filters cleared. -/
theorem empty_search_no_query_witness :
    search "LCSC Part" "ASC" emptySearchParams = { messages := [], outcome := .emptyList } :=
  empty_search_no_query "LCSC Part" "ASC" emptySearchParams rfl rfl rfl rfl rfl rfl rfl rfl rfl

/-!
Rotation table (`library.py` lines 194-246).  The schema is
`CREATE TABLE IF NOT EXISTS rotation ('regex', 'correction')` — no primary
key and no UNIQUE constraint — and `insert_correction_data` is a plain
`INSERT INTO rotation VALUES (?, ?)`.  The table contents are modelled as a
list of (regex, correction) rows in insertion order; `DELETE`/`UPDATE ...
WHERE regex = r` act on every row whose regex equals `r`.
-/

def create_rotation_table : List (String × String) := []

def insert_correction_data (t : List (String × String)) (regex rotation : String) :
    List (String × String) :=
  t ++ [(regex, rotation)]

def delete_correction_data (t : List (String × String)) (regex : String) :
    List (String × String) :=
  t.filter (fun row => row.1 != regex)

def update_correction_data (t : List (String × String)) (regex rotation : String) :
    List (String × String) :=
  t.map (fun row => if row.1 = regex then (row.1, rotation) else row)

/-- The regex column is a unique key of the stored rotation rows. -/
def uniqueRegex (t : List (String × String)) : Prop :=
  (t.map Prod.fst).Nodup

instance (t : List (String × String)) : Decidable (uniqueRegex t) := by
  unfold uniqueRegex
  infer_instance

/-- Number of stored rows carrying the given regex. -/
def countRegex (t : List (String × String)) (regex : String) : Nat :=
  (t.filter (fun row => row.1 == regex)).length

/-- Counterexample to claim C4: the schema has no uniqueness constraint, so
applying `insert_correction_data` twice with the same regex to the freshly
created rotation table leaves two rows sharing that regex. -/
theorem rotation_regex_not_unique_after_double_insert :
    ¬ uniqueRegex
        (insert_correction_data
          (insert_correction_data create_rotation_table "^R_0402_1005Metric" "90")
          "^R_0402_1005Metric" "90") := by
  decide

/-- Claim C4 as amended: the rotation table enforces no uniqueness on the
regex column — a double insert with the same regex always adds two rows with
that regex — while delete removes every row with the given regex and update
rewrites rows in place, so the delete and update operations do preserve
regex uniqueness where it already holds. -/
theorem rotation_insert_duplicates_delete_update_preserve
    (t : List (String × String)) (regex c₁ c₂ c₃ : String) :
    countRegex (insert_correction_data (insert_correction_data t regex c₁) regex c₂) regex =
      countRegex t regex + 2 ∧
    (uniqueRegex t →
      uniqueRegex (delete_correction_data t regex) ∧
      uniqueRegex (update_correction_data t regex c₃)) := by
  constructor
  · simp [countRegex, insert_correction_data, List.filter_append]
  · intro hu
    constructor
    · exact ((List.filter_sublist t).map Prod.fst).nodup hu
    · have hmap : (update_correction_data t regex c₃).map Prod.fst = t.map Prod.fst := by
        simp only [update_correction_data, List.map_map]
        apply List.map_congr_left
        intro a _
        by_cases h : a.1 = regex <;> simp [h]
      unfold uniqueRegex
      rw [hmap]
      exact hu

/-- Witness for the amended claim C4 on a concrete one-row table. -/
theorem rotation_insert_duplicates_witness :
    countRegex
        (insert_correction_data
          (insert_correction_data [("^C_0402", "180")] "^R" "90") "^R" "270") "^R" =
      countRegex [("^C_0402", "180")] "^R" + 2 ∧
    uniqueRegex (delete_correction_data [("^C_0402", "180")] "^R") ∧
    uniqueRegex (update_correction_data [("^C_0402", "180")] "^R" "0") :=
  ⟨(rotation_insert_duplicates_delete_update_preserve [("^C_0402", "180")] "^R" "90" "270" "0").1,
   (rotation_insert_duplicates_delete_update_preserve [("^C_0402", "180")] "^R" "90" "270" "0").2
     (by decide)⟩

/-!
The synchronization pipeline `Library.download` (`library.py` lines 268-347).
The worker aborts on a non-`ok` HTTP status and on a missing Content-Length;
a length below 1000 only posts a message and falls through.  It then reads
the header row, drops the parts table, creates the parts table from the
header, creates the rotation table if absent, and inserts the data rows in
`loadBatches` batches before one final commit.  Progress-gauge events carry
no table effect and are not modelled; messages are.
-/

inductive Msg
  | errStatus (code : Nat)
  | errNoSize
  | errTooSmall (size : Nat)
  | success
deriving DecidableEq

inductive TableOp
  | dropParts
  | createParts (cols : List String)
  | createRotation
  | insertParts (batch : List (List String))
  | commitTx
deriving DecidableEq

structure DownloadRun where
  messages : List Msg
  ops : List TableOp
deriving DecidableEq

/-- `Library.download`, as a function of the HTTP status, the reported
Content-Length, the CSV header row and the parsed data rows. -/
def download (status : Nat) (contentLength : Option Nat) (headers : List String)
    (rows : List (List String)) : DownloadRun :=
  if status ≠ 200 then { messages := [.errStatus status], ops := [] }
  else
    match contentLength with
    | none => { messages := [.errNoSize], ops := [] }
    | some size =>
      { messages := (if size < 1000 then [.errTooSmall size] else []) ++ [.success]
      , ops := [.dropParts, .createParts headers, .createRotation]
          ++ (loadBatches rows).map .insertParts ++ [.commitTx] }

/-- Store state: the parts table (columns and rows) and the rotation table,
each `none` when the table does not exist. -/
structure DBState where
  parts : Option (List String × List (List String))
  rotation : Option (List (String × String))
deriving DecidableEq

/-- Semantics of the SQL statements issued by the pipeline:
`DROP TABLE IF EXISTS parts`, `CREATE TABLE IF NOT EXISTS parts/rotation`,
`executemany INSERT`, `commit`. -/
def applyOp (db : DBState) : TableOp → DBState
  | .dropParts => { db with parts := none }
  | .createParts cols =>
    match db.parts with
    | none => { db with parts := some (cols, []) }
    | some t => { db with parts := some t }
  | .createRotation =>
    match db.rotation with
    | none => { db with rotation := some [] }
    | some t => { db with rotation := some t }
  | .insertParts batch => { db with parts := db.parts.map (fun t => (t.1, t.2 ++ batch)) }
  | .commitTx => db

def applyOps (ops : List TableOp) (db : DBState) : DBState :=
  ops.foldl applyOp db

theorem applyOps_rotation_some :
    ∀ (ops : List TableOp) (db : DBState) (rot : List (String × String)),
      db.rotation = some rot → (applyOps ops db).rotation = some rot := by
  intro ops
  induction ops with
  | nil => intro db rot h; simpa [applyOps] using h
  | cons op rest ih =>
    intro db rot h
    have hstep : (applyOp db op).rotation = some rot := by
      cases op <;> simp [applyOp, h]
      case createParts cols => cases hp : db.parts <;> simp [hp, h]
    simpa [applyOps, List.foldl_cons] using ih (applyOp db op) rot hstep

/-- Claim C6: when the fetch succeeds but the reported length is below the
1000-byte threshold, a size-validation message is posted, yet the pipeline is
not aborted: the message list still ends in the success message, only the
warning is prepended, and the table operations — drop, create, rotation
create, batched inserts, commit — are exactly those of a run whose length is
at the threshold. -/
theorem small_size_warns_but_does_not_abort (size : Nat) (headers : List String)
    (rows : List (List String)) (h : size < 1000) :
    Msg.errTooSmall size ∈ (download 200 (some size) headers rows).messages ∧
    (download 200 (some size) headers rows).messages =
      Msg.errTooSmall size :: (download 200 (some 1000) headers rows).messages ∧
    (download 200 (some size) headers rows).ops =
      (download 200 (some 1000) headers rows).ops := by
  refine ⟨?_, ?_, ?_⟩ <;> simp [download, h]

/-- Witness for claim C6 at a 5-byte reported length. -/
theorem small_size_warns_but_does_not_abort_witness :
    Msg.errTooSmall 5 ∈ (download 200 (some 5) ["LCSC Part"] [["C1"]]).messages ∧
    (download 200 (some 5) ["LCSC Part"] [["C1"]]).messages =
      Msg.errTooSmall 5 :: (download 200 (some 1000) ["LCSC Part"] [["C1"]]).messages ∧
    (download 200 (some 5) ["LCSC Part"] [["C1"]]).ops =
      (download 200 (some 1000) ["LCSC Part"] [["C1"]]).ops :=
  small_size_warns_but_does_not_abort 5 ["LCSC Part"] [["C1"]] (by decide)

/-- Claim C8: whatever the sync run's inputs, the table operations it issues
never drop the rotation table, and the rotation create is `IF NOT EXISTS`,
so every pre-existing rotation row set survives the resync unchanged. -/
theorem sync_preserves_rotation (status : Nat) (clen : Option Nat)
    (headers : List String) (rows : List (List String)) (db : DBState)
    (rot : List (String × String)) (h : db.rotation = some rot) :
    (applyOps (download status clen headers rows).ops db).rotation = some rot :=
  applyOps_rotation_some _ db rot h

/-- Witness for claim C8 on a concrete store with one rotation rule. -/
theorem sync_preserves_rotation_witness :
    (applyOps (download 200 (some 2000) ["LCSC Part", "Stock"] [["C1", "5"]]).ops
        { parts := none, rotation := some [("^R", "90")] }).rotation = some [("^R", "90")] :=
  sync_preserves_rotation 200 (some 2000) ["LCSC Part", "Stock"] [["C1", "5"]]
    { parts := none, rotation := some [("^R", "90")] } [("^R", "90")] rfl

/-!
Line-shape facts about the reader, used for claims C9 and C10.
-/

theorem pair_infix_append_singleton {α : Type} {a b x : α} {l : List α}
    (h : [a, b] <:+: l ++ [x]) :
    [a, b] <:+: l ∨ (x = b ∧ ∃ l1, l = l1 ++ [a]) := by
  obtain ⟨s, t, hst⟩ := h
  rcases t.eq_nil_or_concat with rfl | ⟨t1, y, rfl⟩
  · right
    have h2 : l ++ [x] = (s ++ [a]) ++ [b] := by
      rw [<- hst]; simp
    have h3 := congrArg List.reverse h2
    simp only [List.reverse_append, List.reverse_cons, List.reverse_nil,
      List.nil_append, List.cons_append, List.singleton_append, List.cons.injEq] at h3
    obtain ⟨rfl, h4⟩ := h3
    exact ⟨rfl, s, by simpa using congrArg List.reverse h4⟩
  · left
    have h2 : l ++ [x] = (s ++ [a, b] ++ t1) ++ [y] := by
      rw [<- hst]; simp
    have h3 := congrArg List.reverse h2
    simp only [List.reverse_append, List.reverse_cons, List.reverse_nil,
      List.nil_append, List.cons_append, List.singleton_append, List.cons.injEq] at h3
    obtain ⟨rfl, h4⟩ := h3
    have h5 : l = s ++ a :: b :: t1 := by simpa using congrArg List.reverse h4
    exact ⟨s, t1, by simp [h5]⟩

theorem emitGo_mem {α : Type} [DecidableEq α] (cr lf : α) :
    ∀ (s acc : List α), ¬ [cr, lf] <:+: acc.reverse →
      ∀ l ∈ (emitGo cr lf s acc).1,
        ∃ pre, l = pre ++ [cr, lf] ∧ ¬ [cr, lf] <:+: (pre ++ [cr]) := by
  intro s
  induction s with
  | nil => intro acc _ l hl; simp [emitGo] at hl
  | cons c rest ih =>
    intro acc hacc l hl
    by_cases hb : c = lf ∧ acc.head? = some cr
    · obtain ⟨hc, hh⟩ := hb
      obtain ⟨acc1, rfl⟩ : ∃ acc1, acc = cr :: acc1 := by
        cases acc with
        | nil => simp at hh
        | cons a acc1 => exact ⟨acc1, by rw [show a = cr from by simpa using hh]⟩
      rw [emitGo, if_pos ⟨hc, hh⟩] at hl
      simp only [List.mem_cons] at hl
      rcases hl with rfl | hl
      · refine ⟨acc1.reverse, by simp [hc], ?_⟩
        simpa using hacc
      · have h0 : ¬ [cr, lf] <:+: ([] : List α).reverse := by simp
        exact ih [] h0 l hl
    · rw [emitGo] at hl
      rw [if_neg hb] at hl
      have hnext : ¬ [cr, lf] <:+: (c :: acc).reverse := by
        intro hin
        rw [List.reverse_cons] at hin
        rcases pair_infix_append_singleton hin with hin1 | ⟨rfl, l1, hl1⟩
        · exact hacc hin1
        · have hacc2 : acc = cr :: l1.reverse := by
            have := congrArg List.reverse hl1
            simpa using this
          exact hb ⟨rfl, by simp [hacc2]⟩
      exact ih (c :: acc) hnext l hl

theorem runFromChunks_mem {α : Type} [DecidableEq α] (D : List α → List α) (cr lf : α) :
    ∀ (chunks : List (List α)) (consumed linebuf : List α) (l : List α),
      l ∈ runFromChunks D cr lf chunks consumed linebuf →
      ∃ pre, l = pre ++ [cr, lf] ∧ ¬ [cr, lf] <:+: (pre ++ [cr]) := by
  intro chunks
  induction chunks with
  | nil =>
    intro consumed linebuf l hl
    rw [runFromChunks] at hl
    exact emitGo_mem cr lf linebuf [] (by simp) l hl
  | cons c cs ih =>
    intro consumed linebuf l hl
    rw [runFromChunks] at hl
    by_cases hnd : (decOut D consumed c).isEmpty
    · simp only [hnd, if_pos] at hl
      exact emitGo_mem cr lf linebuf [] (by simp) l hl
    · simp only [hnd, if_neg, Bool.false_eq_true, not_false_eq_true, List.mem_append] at hl
      rcases hl with hl | hl
      · exact emitGo_mem cr lf linebuf [] (by simp) l hl
      · exact ih _ _ l hl

theorem runFromChunks_id_single {α : Type} [DecidableEq α] (cr lf : α) (t : List α) :
    runFromChunks (fun s => s) cr lf [t] [] [] = linesSep cr lf t := by
  cases t with
  | nil => rfl
  | cons c rest =>
    rw [runFromChunks]
    simp [decOut, emitAll, emitGo, linesSep, runFromChunks]

theorem emitGo_no_pair {α : Type} [DecidableEq α] (cr lf : α) :
    ∀ (s acc : List α), ¬ [cr, lf] <:+: (acc.reverse ++ s) → (emitGo cr lf s acc).1 = [] := by
  intro s
  induction s with
  | nil => intro acc _; simp [emitGo]
  | cons c rest ih =>
    intro acc h
    by_cases hb : c = lf ∧ acc.head? = some cr
    · obtain ⟨hc, hh⟩ := hb
      obtain ⟨acc1, rfl⟩ : ∃ acc1, acc = cr :: acc1 := by
        cases acc with
        | nil => simp at hh
        | cons a acc1 => exact ⟨acc1, by rw [show a = cr from by simpa using hh]⟩
      exact absurd ⟨acc1.reverse, rest, by simp [hc]⟩ h
    · rw [emitGo, if_neg hb]
      apply ih (c :: acc)
      simpa using h

/-- Claim C10: every line emitted by the reader's `readline` ends with the
two-byte CRLF terminator and contains no earlier occurrence of it; lines are
recognised only at CRLF — over a single chunk with the identity decompressor
the reader splits the decoded text exactly as `linesSep` does — and a text
with no CRLF at all (for instance one whose line breaks are bare LF, or the
trailing bytes after the last CRLF) yields no line. -/
theorem readline_lines_end_in_crlf :
    (∀ (D : List Nat → List Nat) (chunks : List (List Nat)) (l : List Nat),
       l ∈ readerLines D chunks →
       ∃ pre, l = pre ++ [13, 10] ∧ ¬ [13, 10] <:+: (pre ++ [13])) ∧
    (∀ text : List Nat, readerLines (fun s => s) [text] = linesSep 13 10 text) ∧
    (∀ text : List Nat, ¬ [13, 10] <:+: text → linesSep 13 10 text = []) := by
  refine ⟨?_, ?_, ?_⟩
  · intro D chunks l hl
    exact runFromChunks_mem D 13 10 chunks [] [] l hl
  · intro text
    exact runFromChunks_id_single 13 10 text
  · intro text h
    exact emitGo_no_pair 13 10 text [] (by simpa using h)

/-- Witness for claim C10: over the text `a LF b CR LF c` the reader emits
exactly the one line `a LF b CR LF` — the bare LF does not split it — and the
trailing `c`, like any text without CRLF, yields no line. -/
theorem readline_lines_end_in_crlf_witness :
    (∃ pre, ([97, 10, 98, 13, 10] : List Nat) = pre ++ [13, 10] ∧
       ¬ [13, 10] <:+: (pre ++ [13])) ∧
    linesSep 13 10 ([97, 10, 98] : List Nat) = [] :=
  ⟨readline_lines_end_in_crlf.1 (fun s => s) [[97, 10, 98, 13, 10, 99]] [97, 10, 98, 13, 10]
     (by decide),
   readline_lines_end_in_crlf.2.2 [97, 10, 98] (by decide)⟩

theorem emitGo_flatten {α : Type} [DecidableEq α] (cr lf : α) :
    ∀ (s acc : List α),
      ((emitGo cr lf s acc).1).flatten ++ (emitGo cr lf s acc).2 = acc.reverse ++ s := by
  intro s
  induction s with
  | nil => intro acc; simp [emitGo]
  | cons c rest ih =>
    intro acc
    by_cases hb : c = lf ∧ acc.head? = some cr
    · rw [emitGo, if_pos hb]
      simp only [List.flatten_cons, List.append_assoc, List.reverse_cons]
      rw [ih []]
      simp
    · rw [emitGo, if_neg hb]
      simpa using ih (c :: acc)

theorem emitGo_rem_nil {α : Type} [DecidableEq α] (cr lf : α) (hne : cr ≠ lf) :
    ∀ (pre acc : List α), (emitGo cr lf (pre ++ [cr, lf]) acc).2 = [] := by
  intro pre
  induction pre with
  | nil =>
    intro acc
    rw [List.nil_append, emitGo, if_neg (fun h => hne h.1)]
    rw [emitGo, if_pos ⟨rfl, by simp⟩]
    simp [emitGo]
  | cons p0 pre1 ih =>
    intro acc
    by_cases hb : p0 = lf ∧ acc.head? = some cr
    · rw [List.cons_append, emitGo, if_pos hb]
      exact ih []
    · rw [List.cons_append, emitGo, if_neg hb]
      exact ih (p0 :: acc)

theorem linesSep_flatten_of_ends_crlf {α : Type} [DecidableEq α] (cr lf : α) (hne : cr ≠ lf)
    (pre : List α) :
    (linesSep cr lf (pre ++ [cr, lf])).flatten = pre ++ [cr, lf] := by
  have h1 := emitGo_flatten cr lf (pre ++ [cr, lf]) []
  have h2 := emitGo_rem_nil cr lf hne pre []
  rw [h2, List.append_nil] at h1
  simpa [linesSep, emitAll] using h1

/-!
The export utility `gencsv.py` and the export-then-import round trip
(claim C9).  The CSV layer models Python's `csv.writer`/`csv.reader` with
the default dialect: delimiter `,`, quote character `"`, QUOTE_MINIMAL
(a field is quoted exactly when it contains the delimiter, the quote
character or a line-terminator character), doubled quotes, and `\x5cr\x5cn`
row terminator.  `csv.reader` consumes the terminator-delimited lines the
reader hands it and continues a quoted field across lines, which over the
concatenation of those lines is the single character-level state machine
`csvScan`.  Text is modelled at the character level: the UTF-8
encode/decode pair on the wire is the identity on characters (a multi-byte
character never spans a CRLF split, since continuation bytes are >= 0x80),
and the LZMA compress/decompress pair is modelled by running the reader
with the identity cumulative decompressor.
-/

def joinSepL {α : Type} (sep : List α) : List (List α) → List α
  | [] => []
  | [x] => x
  | x :: xs => x ++ sep ++ joinSepL sep xs

def needsQuote (f : List Char) : Bool :=
  f.any (fun c => c == ',' || c == '"' || c == '\r' || c == '\n')

def escQ : List Char → List Char
  | [] => []
  | c :: rest => if c = '"' then '"' :: '"' :: escQ rest else c :: escQ rest

def encodeField (f : List Char) : List Char :=
  if needsQuote f then '"' :: (escQ f ++ ['"']) else f

def encodeRow (r : List (List Char)) : List Char :=
  joinSepL [','] (r.map encodeField) ++ ['\r', '\n']

def encodeRows (rows : List (List (List Char))) : List Char :=
  (rows.map encodeRow).flatten

inductive CState
  | start
  | unq
  | quot
  | quotq
  | eatlf
deriving DecidableEq

def csvScan : List Char → CState → List Char → List (List Char) → List (List (List Char)) →
    List (List (List Char))
  | [], st, field, row, acc =>
    match st with
    | .start => if row.isEmpty then acc else acc ++ [row ++ [[]]]
    | .unq | .quot | .quotq => acc ++ [row ++ [field]]
    | .eatlf => acc
  | c :: rest, st, field, row, acc =>
    match st with
    | .start =>
      if c = ',' then csvScan rest .start [] (row ++ [[]]) acc
      else if c = '"' then csvScan rest .quot [] row acc
      else if c = '\r' then
        csvScan rest .eatlf [] [] (acc ++ [if row.isEmpty then [] else row ++ [[]]])
      else if c = '\n' then
        csvScan rest .start [] [] (acc ++ [if row.isEmpty then [] else row ++ [[]]])
      else csvScan rest .unq [c] row acc
    | .unq =>
      if c = ',' then csvScan rest .start [] (row ++ [field]) acc
      else if c = '\r' then csvScan rest .eatlf [] [] (acc ++ [row ++ [field]])
      else if c = '\n' then csvScan rest .start [] [] (acc ++ [row ++ [field]])
      else csvScan rest .unq (field ++ [c]) row acc
    | .quot =>
      if c = '"' then csvScan rest .quotq field row acc
      else csvScan rest .quot (field ++ [c]) row acc
    | .quotq =>
      if c = '"' then csvScan rest .quot (field ++ [c]) row acc
      else if c = ',' then csvScan rest .start [] (row ++ [field]) acc
      else if c = '\r' then csvScan rest .eatlf [] [] (acc ++ [row ++ [field]])
      else if c = '\n' then csvScan rest .start [] [] (acc ++ [row ++ [field]])
      else csvScan rest .unq (field ++ [c]) row acc
    | .eatlf =>
      if c = '\n' then csvScan rest .start [] [] acc
      else if c = ',' then csvScan rest .start [] [[]] acc
      else if c = '"' then csvScan rest .quot [] [] acc
      else if c = '\r' then csvScan rest .eatlf [] [] (acc ++ [[]])
      else csvScan rest .unq [c] [] acc

def csvParse (s : List Char) : List (List (List Char)) :=
  csvScan s .start [] [] []

example :
    csvParse ("a,b\r\nc,\"d,e\"\r\n".data) =
      [["a".data, "b".data], ["c".data, "d,e".data]] := by decide

example :
    csvParse (encodeRows [["a\"x".data, "".data], ["y\r\nz".data, "w".data]]) =
      [["a\"x".data, "".data], ["y\r\nz".data, "w".data]] := by decide

example : encodeRows [["a\"x".data, "".data]] = "\"a\"\"x\",\r\n".data := by decide

theorem csvScan_quot_escQ :
    ∀ (f rest field : List Char) (row : List (List Char)) (acc : List (List (List Char))),
      csvScan (escQ f ++ '"' :: rest) .quot field row acc =
        csvScan rest .quotq (field ++ f) row acc := by
  intro f
  induction f with
  | nil => intro rest field row acc; simp [escQ, csvScan]
  | cons c f1 ih =>
    intro rest field row acc
    by_cases hc : c = '"'
    · subst hc
      have h1 : escQ ('"' :: f1) ++ '"' :: rest = '"' :: '"' :: (escQ f1 ++ '"' :: rest) := by
        simp [escQ]
      rw [h1]
      simp only [csvScan, List.append_eq, reduceIte]
      rw [ih]
      simp
    · have h1 : escQ (c :: f1) ++ '"' :: rest = c :: (escQ f1 ++ '"' :: rest) := by
        simp [escQ, hc]
      rw [h1]
      simp only [csvScan, List.append_eq]
      rw [if_neg hc, ih]
      simp

theorem csvScan_unq :
    ∀ (f : List Char), (∀ c ∈ f, c ≠ ',' ∧ c ≠ '\r' ∧ c ≠ '\n') →
      ∀ (rest field : List Char) (row : List (List Char)) (acc : List (List (List Char))),
        csvScan (f ++ rest) .unq field row acc = csvScan rest .unq (field ++ f) row acc := by
  intro f
  induction f with
  | nil => intro _ rest field row acc; simp
  | cons c f1 ih =>
    intro hf rest field row acc
    obtain ⟨hc1, hc2, hc3⟩ := hf c (List.mem_cons_self c f1)
    rw [List.cons_append]
    simp only [csvScan, List.append_eq]
    rw [if_neg hc1, if_neg hc2, if_neg hc3]
    rw [ih (fun x hx => hf x (List.mem_cons_of_mem c hx))]
    simp

def fieldStep (f : List Char) (row : List (List Char)) (acc : List (List (List Char))) :
    List Char → List (List (List Char))
  | ',' :: r => csvScan r .start [] (row ++ [f]) acc
  | '\r' :: r =>
    csvScan r .eatlf [] [] (acc ++ [if f = [] ∧ row = [] then [] else row ++ [f]])
  | '\n' :: r =>
    csvScan r .start [] [] (acc ++ [if f = [] ∧ row = [] then [] else row ++ [f]])
  | [] => if f = [] ∧ row = [] then acc else acc ++ [row ++ [f]]
  | r => csvScan r .unq f row acc

theorem csvScan_encodeField (f : List Char) (row : List (List Char))
    (acc : List (List (List Char))) (rest : List Char)
    (hrest : rest = [] ∨ (∃ r, rest = ',' :: r) ∨ (∃ r, rest = '\r' :: r) ∨
      (∃ r, rest = '\n' :: r)) :
    csvScan (encodeField f ++ rest) .start [] row acc = fieldStep f row acc rest := by
  by_cases hq : needsQuote f
  · have hfne : f ≠ [] := by
      intro h
      subst h
      simp [needsQuote] at hq
    have h1 : encodeField f ++ rest = '"' :: (escQ f ++ '"' :: rest) := by
      simp [encodeField, hq]
    rw [h1]
    simp only [csvScan, reduceIte]
    rw [csvScan_quot_escQ]
    rcases hrest with rfl | ⟨r, rfl⟩ | ⟨r, rfl⟩ | ⟨r, rfl⟩ <;>
      simp [csvScan, fieldStep, reduceIte, hfne]
  · have hns : ∀ c ∈ f, c ≠ ',' ∧ c ≠ '"' ∧ c ≠ '\r' ∧ c ≠ '\n' := by
      intro c hc
      have h4 : ¬ (c = ',' ∨ c = '"' ∨ c = '\r' ∨ c = '\n') := by
        intro h5
        apply hq
        simp only [needsQuote, List.any_eq_true]
        refine ⟨c, hc, ?_⟩
        rcases h5 with h | h | h | h <;> simp [h]
      push_neg at h4
      exact h4
    have h1 : encodeField f = f := by simp [encodeField, hq]
    rw [h1]
    cases f with
    | nil =>
      rcases hrest with rfl | ⟨r, rfl⟩ | ⟨r, rfl⟩ | ⟨r, rfl⟩ <;>
        simp [csvScan, fieldStep, reduceIte, List.isEmpty_iff]
    | cons c f1 =>
      obtain ⟨hc1, hc2, hc3, hc4⟩ := hns c (List.mem_cons_self c f1)
      have hstep : csvScan ((c :: f1) ++ rest) .start [] row acc =
          csvScan (f1 ++ rest) .unq [c] row acc := by
        rw [List.cons_append]
        simp only [csvScan, List.append_eq]
        rw [if_neg hc1, if_neg hc2, if_neg hc3, if_neg hc4]
      rw [hstep, csvScan_unq f1 (fun x hx => by
        obtain ⟨a1, _, a3, a4⟩ := hns x (List.mem_cons_of_mem c hx)
        exact ⟨a1, a3, a4⟩)]
      have hfne : c :: f1 ≠ [] := by simp
      rcases hrest with rfl | ⟨r, rfl⟩ | ⟨r, rfl⟩ | ⟨r, rfl⟩ <;>
        simp [csvScan, fieldStep, reduceIte, hfne]

theorem fieldStep_comma (f : List Char) (row : List (List Char))
    (acc : List (List (List Char))) (r : List Char) :
    fieldStep f row acc (',' :: r) = csvScan r .start [] (row ++ [f]) acc := rfl

theorem fieldStep_crlf (f : List Char) (row : List (List Char))
    (acc : List (List (List Char))) (r : List Char) :
    fieldStep f row acc ('\r' :: r) =
      csvScan r .eatlf [] [] (acc ++ [if f = [] ∧ row = [] then [] else row ++ [f]]) := rfl

theorem csvScan_row :
    ∀ (fs : List (List Char)) (f : List Char) (row : List (List Char))
      (acc : List (List (List Char))) (tail : List Char),
      csvScan (joinSepL [','] ((f :: fs).map encodeField) ++ '\r' :: '\n' :: tail)
          .start [] row acc =
        csvScan tail .start [] []
          (acc ++ [if f :: fs = [[]] ∧ row = [] then [] else row ++ f :: fs]) := by
  intro fs
  induction fs with
  | nil =>
    intro f row acc tail
    rw [show joinSepL [','] ([f].map encodeField) = encodeField f from rfl]
    rw [csvScan_encodeField f row acc ('\r' :: '\n' :: tail)
      (Or.inr (Or.inr (Or.inl ⟨'\n' :: tail, rfl⟩)))]
    rw [fieldStep_crlf]
    simp only [csvScan, reduceIte]
    by_cases hf : f = [] <;> by_cases hr : row = [] <;> simp [hf, hr]
  | cons f2 fs1 ih =>
    intro f row acc tail
    have hj : joinSepL [','] ((f :: f2 :: fs1).map encodeField) ++ '\r' :: '\n' :: tail
        = encodeField f
          ++ (',' :: (joinSepL [','] ((f2 :: fs1).map encodeField) ++ '\r' :: '\n' :: tail)) := by
      simp [joinSepL]
    rw [hj, csvScan_encodeField f row acc _ (Or.inr (Or.inl ⟨_, rfl⟩)), fieldStep_comma]
    rw [ih f2 (row ++ [f]) acc tail]
    have hne : row ++ [f] ≠ [] := by simp
    simp [hne]

theorem csvScan_rows :
    ∀ (rows : List (List (List Char))) (acc : List (List (List Char))),
      (∀ r ∈ rows, r ≠ [] ∧ r ≠ [[]]) →
      csvScan (encodeRows rows) .start [] [] acc = acc ++ rows := by
  intro rows
  induction rows with
  | nil => intro acc _; simp [encodeRows, csvScan]
  | cons r rs ih =>
    intro acc hok
    obtain ⟨hne, hnee⟩ := hok r (List.mem_cons_self r rs)
    obtain ⟨f, fs, rfl⟩ : ∃ f fs, r = f :: fs := by
      cases r with
      | nil => exact absurd rfl hne
      | cons f fs => exact ⟨f, fs, rfl⟩
    have hshape : encodeRows ((f :: fs) :: rs)
        = joinSepL [','] ((f :: fs).map encodeField) ++ '\r' :: '\n' :: encodeRows rs := by
      simp [encodeRows, encodeRow]
    rw [hshape, csvScan_row fs f [] acc (encodeRows rs)]
    rw [if_neg (fun h => hnee h.1)]
    rw [ih _ (fun x hx => hok x (List.mem_cons_of_mem _ hx))]
    simp

theorem csvParse_encodeRows (rows : List (List (List Char)))
    (hok : ∀ r ∈ rows, r ≠ [] ∧ r ≠ [[]]) :
    csvParse (encodeRows rows) = rows := by
  simpa using csvScan_rows rows [] hok

structure PriceTier where
  qFrom : Option Nat
  qTo : Option Nat
  price : String
deriving DecidableEq

structure PartRecord where
  lcsc : Nat
  category : String
  subcategory : String
  mfr : String
  package : String
  joints : Nat
  manufacturer : String
  basic : Nat
  description : String
  datasheet : String
  price : List PriceTier
  stock : Nat
deriving DecidableEq

def qStr : Option Nat → String
  | none => ""
  | some n => if n = 0 then "" else toString n

def tierStr (t : PriceTier) : String :=
  qStr t.qFrom ++ "-" ++ qStr t.qTo ++ ":" ++ t.price

def priceStr (ts : List PriceTier) : String :=
  joinSep "," (ts.map tierStr)

def gencsvRow (p : PartRecord) : List String :=
  ["C" ++ toString p.lcsc, p.category, p.subcategory, p.mfr, p.package, toString p.joints,
   p.manufacturer, if p.basic = 0 then "Basic" else "Extended", p.description, p.datasheet,
   priceStr p.price, toString p.stock]

def csvHeader : List String :=
  ["LCSC Part", "First Category", "Second Category", "MFR.Part", "Package", "Solder Joint",
   "Manufacturer", "Library Type", "Description", "Datasheet", "Price", "Stock"]

def exportText (parts : List PartRecord) : List Char :=
  encodeRows
    ((csvHeader.map String.data) :: (parts.map gencsvRow).map (fun r => r.map String.data))

def pipelineRows (D : List Char → List Char) (chunks : List (List Char)) :
    List (List (List Char)) :=
  csvParse ((runFromChunks D '\r' '\n' chunks [] []).flatten)

def pipelineStored (D : List Char → List Char) (chunks : List (List Char)) :
    List (List (List Char)) :=
  (loadBatches (pipelineRows D chunks).tail).flatten

theorem encodeRows_ends_crlf :
    ∀ (rs : List (List (List Char))) (r : List (List Char)),
      ∃ pre, encodeRows (r :: rs) = pre ++ ['\r', '\n'] := by
  intro rs
  induction rs with
  | nil =>
    intro r
    exact ⟨joinSepL [','] (r.map encodeField), by simp [encodeRows, encodeRow]⟩
  | cons r2 rs1 ih =>
    intro r
    obtain ⟨pre, hpre⟩ := ih r2
    refine ⟨encodeRow r ++ pre, ?_⟩
    have hsplit : encodeRows (r :: r2 :: rs1) = encodeRow r ++ encodeRows (r2 :: rs1) := by
      simp [encodeRows]
    rw [hsplit, hpre, List.append_assoc]

/-- Claim C9: exporting any set of part records with `gencsv` — deriving the
Library Type text from the flag (0 means Basic, anything else Extended) and
flattening each price tier to `qFrom-qTo:price` with falsy bounds left
empty, comma-joining the tiers — and importing the produced CSV through the
sync pipeline (reader lines, CSV parsing, header removal, batched inserts)
stores exactly the exported field values, the reconstructed price strings
included. -/
theorem export_import_round_trip (parts : List PartRecord) :
    pipelineStored (fun s => s) [exportText parts] =
      (parts.map gencsvRow).map (fun r => r.map String.data) := by
  have hrows : ∀ r ∈ (csvHeader.map String.data) ::
      (parts.map gencsvRow).map (fun r => r.map String.data), r ≠ [] ∧ r ≠ [[]] := by
    intro r hr
    rcases List.mem_cons.mp hr with rfl | hr
    · exact ⟨by decide, by decide⟩
    · obtain ⟨r0, hr0, rfl⟩ := List.mem_map.mp hr
      obtain ⟨p, _, rfl⟩ := List.mem_map.mp hr0
      have hlen : ((gencsvRow p).map String.data).length = 12 := by simp [gencsvRow]
      constructor
      · intro h; rw [h] at hlen; simp at hlen
      · intro h; rw [h] at hlen; simp at hlen
  have h1 : runFromChunks (fun s => s) '\r' '\n' [exportText parts] [] []
      = linesSep '\r' '\n' (exportText parts) := runFromChunks_id_single _ _ _
  obtain ⟨pre, hpre⟩ := encodeRows_ends_crlf
    ((parts.map gencsvRow).map (fun r => r.map String.data)) (csvHeader.map String.data)
  have h2 : (linesSep '\r' '\n' (exportText parts)).flatten = exportText parts := by
    have hx : exportText parts = pre ++ ['\r', '\n'] := hpre
    rw [hx]
    exact linesSep_flatten_of_ends_crlf '\r' '\n' (by decide) pre
  have h3 : pipelineRows (fun s => s) [exportText parts]
      = (csvHeader.map String.data) :: (parts.map gencsvRow).map (fun r => r.map String.data) := by
    unfold pipelineRows
    rw [h1, h2]
    exact csvParse_encodeRows _ hrows
  unfold pipelineStored
  rw [h3, List.tail_cons]
  exact loadLoop_flatten _ 0 []

/-- A concrete part with two price tiers, one bound falsy on each side. -/
def samplePart : PartRecord :=
  { lcsc := 25804, category := "Resistors", subcategory := "Chip Resistor"
  , mfr := "0402WGF1001TCE", package := "0402", joints := 2, manufacturer := "UNI-ROYAL"
  , basic := 0, description := "100KOhms 1% 1/16W", datasheet := "https://lcsc.com/ds.pdf"
  , price := [{ qFrom := some 1, qTo := some 199, price := "0.0047" },
              { qFrom := some 200, qTo := none, price := "0.0017" }]
  , stock := 190 }

/-- Witness for claim C9 at a concrete multi-tier part. -/
theorem export_import_round_trip_witness :
    pipelineStored (fun s => s) [exportText [samplePart]] =
      ([samplePart].map gencsvRow).map (fun r => r.map String.data) :=
  export_import_round_trip [samplePart]
